import Mathlib

/-!
Verification of the pairs-trading backtest core.

This file gives a shallow embedding, over `ℚ`, of the trading core of the
repository:

* `kalman_filter.py` — the class `KalmanFilterSDA` (one-dimensional Kalman
  filter for the hedge ratio): `kalmanPredict`, `kalmanUpdate`.
* `backtest.py` — the function `run_backtest`: the insufficient-data guard
  (`runBacktest`), the sequential position loop (`posStep`, `posAux`,
  `posList`), and the PnL/metrics loop (`simStep`, `simGo`, `simulatePnl`).
* `pairs_nasdaq100.py` — the vectorized position logic of `backtest_pair`
  (`vecPosRaw`, `ffillZeros`, `backtestPairPositions`).

Python floats are modelled as exact rationals.  The two transcendental
library calls the core makes, `np.log` (per-bar log returns) and `np.sqrt`
(rolling standard deviation, Sharpe scaling), are modelled as explicit
function parameters `rlog rsqrt : ℚ → ℚ`; every theorem below is proved for
all values of these parameters, so nothing depends on their actual values.

`backtest.py` imports `run_kalman` from `kalman_filter.py`, but no
definition of `run_kalman` appears in the sources; the definitions that
stand in for it (`betas`, `spreads`, `zAt`, `zscoreList`) are modelled from
the specification and are marked as such in their doc comments.
-/

namespace PairsBacktest

/-- Configuration of one backtest run: the keyword parameters of
`run_backtest` (`q`, `r`, `entry_z`, `exit_z`, `sizing`, `costs_bps`,
`borrow_annual`), plus the prior and rolling-window length consumed by the
spec-modelled `run_kalman` (`beta0`, `p0`, `window`). -/
structure Config where
  q : ℚ
  r : ℚ
  entryZ : ℚ
  exitZ : ℚ
  sizing : ℚ
  costsBps : ℚ
  borrowAnnual : ℚ
  beta0 : ℚ
  p0 : ℚ
  window : ℕ

/-- State of `KalmanFilterSDA`: the 1×1 "matrices" of the source are kept
as scalars.  `x` is the hedge-ratio estimate, `P` its variance, `Q` the
process noise and `R` the measurement noise (both constant after
`__init__`). -/
structure KFState where
  x : ℚ
  P : ℚ
  Q : ℚ
  R : ℚ

/-- The constant transition matrix `self.F = np.array([[1.0]])`. -/
def kalmanF : ℚ := 1

/-- The constructor `KalmanFilterSDA.__init__(initial_beta, initial_R,
Q_process, R_measurement)`. -/
def kalmanInit (initial_beta initial_R Q_process R_measurement : ℚ) : KFState :=
  ⟨initial_beta, initial_R, Q_process, R_measurement⟩

/-- The method `KalmanFilterSDA.predict`:
`x_pred = F @ x`, `P_pred = F @ P @ F.T + Q`. -/
def kalmanPredict (s : KFState) : KFState :=
  { s with x := kalmanF * s.x, P := kalmanF * s.P * kalmanF + s.Q }

/-- The method `KalmanFilterSDA.update(price_y, price_x)`:
`H = [[price_x]]`, `y_tilde = price_y - H @ x`, `S = H @ P @ H.T + R`,
`K = P @ H.T * (1.0 / S)`, `x += K * y_tilde`, `P = (I - K @ H) @ P`.
Returns the new state together with the method's return triple
`(x[0], P[0, 0], S[0, 0])`. -/
def kalmanUpdate (s : KFState) (price_y price_x : ℚ) : KFState × ℚ × ℚ × ℚ :=
  let H := price_x
  let spread_pred := H * s.x
  let y_tilde := price_y - spread_pred
  let S := H * s.P * H + s.R
  let K := s.P * H * (1 / S)
  let x1 := s.x + K * y_tilde
  let P1 := (1 - K * H) * s.P
  ({ s with x := x1, P := P1 }, x1, P1, S)

/-- Iterated `update` with a fixed observation pair (the state component
only); used to express repeated identical observations. -/
def kalmanIter (price_y price_x : ℚ) (s : KFState) : ℕ → KFState
  | 0 => s
  | n + 1 => (kalmanUpdate (kalmanIter price_y price_x s n) price_y price_x).1

/-- Modelled from the spec: `run_kalman` (imported by `backtest.py` from
`kalman_filter.py` but absent from the sources) feeds each observation pair
through the estimator, per bar one `predict` followed by one
`update(y[t], x[t])`, and records the per-bar hedge ratio (spec §4.1,
§4.4 step 1). -/
def betas (s : KFState) : List (ℚ × ℚ) → List ℚ
  | [] => []
  | b :: rest =>
      let s1 := kalmanPredict s
      let s2 := (kalmanUpdate s1 b.2 b.1).1
      s2.x :: betas s2 rest

/-- Modelled from the spec: the spread stream of `run_kalman`,
`spread[t] = y[t] - hedgeRatio[t] * x[t]` (spec §4.2; level-price
convention, fixed for the run). -/
def spreads (cfg : Config) (d : List (ℚ × ℚ)) : List ℚ :=
  List.zipWith (fun p b => p.2 - b * p.1) d (betas (kalmanInit cfg.beta0 cfg.p0 cfg.q cfg.r) d)

/-- Modelled from the spec: the z-score of bar `t`, from a trailing window
of exactly `W` bars ending at `t` inclusive; undefined (`none`) during
warm-up (`t < W - 1`) and when the rolling standard deviation is zero
(spec §4.2).  The rolling mean divides by `W` and the rolling variance by
`W - 1` (sample variance, as `pandas` uses); `rsqrt` models `np.sqrt`. -/
def zAt (rsqrt : ℚ → ℚ) (W : ℕ) (s : List ℚ) (t : ℕ) : Option ℚ :=
  if t + 1 < W then none
  else
    let w := (s.take (t + 1)).drop (t + 1 - W)
    let m := w.sum / (W : ℚ)
    let v := (w.map (fun a => (a - m) ^ 2)).sum / ((W : ℚ) - 1)
    let sd := rsqrt v
    if sd = 0 then none else some ((s.getD t 0 - m) / sd)

/-- Modelled from the spec: the z-score stream, one (possibly undefined)
value per bar of the spread stream. -/
def zscoreList (rsqrt : ℚ → ℚ) (W : ℕ) (s : List ℚ) : List (Option ℚ) :=
  (List.range s.length).map (zAt rsqrt W s)

/-- One bar of the aligned frame that survives the NaN mask
`keep = spread.notna() & z.notna() & hedge.notna()` of `run_backtest`:
its prices and its hedge ratio. -/
structure Bar where
  px : ℚ
  py : ℚ
  beta : ℚ

/-- The kept bars of `run_backtest`, each paired with its (defined)
z-score: the rows of `df.loc[keep]` together with `hedge.loc[keep]` and
`z.loc[keep]`.  In this model `spread` and `hedge` are total, so the mask
reduces to definedness of the z-score. -/
def kept (rsqrt : ℚ → ℚ) (cfg : Config) (d : List (ℚ × ℚ)) : List (Bar × ℚ) :=
  (List.zipWith
      (fun (p : ℚ × ℚ) (bz : ℚ × Option ℚ) => (Bar.mk p.1 p.2 bz.1, bz.2)) d
      ((betas (kalmanInit cfg.beta0 cfg.p0 cfg.q cfg.r) d).zip
        (zscoreList rsqrt cfg.window (spreads cfg d)))).filterMap
    (fun r => r.2.map (fun zv => (r.1, zv)))

/-- One step of the sequential position loop of `run_backtest`
(`# POSITION LOGIC (Sequential)`): from flat (`prev == 0`) open short
spread on `zi > entry_z`, long spread on `zi < -entry_z`; in a trade,
close only when `abs(zi) < exit_z`.  All comparisons are strict, exactly
as in the source. -/
def posStep (entry exit_ : ℚ) (prev : Int) (zi : ℚ) : Int :=
  if prev = 0 then
    if zi > entry then -1
    else if zi < -entry then 1
    else 0
  else
    if |zi| < exit_ then 0 else prev

/-- The tail of the position series: positions of bars `1, 2, ...`, each
obtained from the previous position by `posStep`. -/
def posAux (entry exit_ : ℚ) (prev : Int) : List ℚ → List Int
  | [] => []
  | z :: zs =>
      let cur := posStep entry exit_ prev z
      cur :: posAux entry exit_ cur zs

/-- The position series of `run_backtest`: `pos` is initialised to `0`
everywhere and the loop starts at `i = 1`, so bar `0` is always flat and
`z.iloc[0]` is never consulted. -/
def posList (entry exit_ : ℚ) : List ℚ → List Int
  | [] => []
  | _ :: zs => 0 :: posAux entry exit_ 0 zs

/-- The state after the position loop has consumed a list of z-scores;
used to split the loop over an append. -/
def posFinal (entry exit_ : ℚ) (prev : Int) : List ℚ → Int
  | [] => prev
  | z :: zs => posFinal entry exit_ (posStep entry exit_ prev z) zs

/-- Position values as the spec names them (§4.3). -/
inductive Position where
  | flat : Position
  | longSpread : Position
  | shortSpread : Position
deriving DecidableEq

/-- The integer encoding `run_backtest` uses:
`# pos: -1 = short spread, +1 = long spread, 0 = flat`. -/
def encodePos : Position → Int
  | .flat => 0
  | .longSpread => 1
  | .shortSpread => -1

/-- The transition table of spec §4.3, written from its rows: from `Flat`,
`zscore > +entryThreshold` gives `ShortSpread`, `zscore < -entryThreshold`
gives `LongSpread`, otherwise `Flat`; from an open position,
`|zscore| < exitThreshold` gives `Flat`, otherwise the state is unchanged.
All comparisons strict, so a z-score exactly equal to a threshold takes
the "otherwise" row. -/
def specTransition (entry exit_ : ℚ) : Position → ℚ → Position
  | .flat, z =>
      if z > entry then .shortSpread
      else if z < -entry then .longSpread
      else .flat
  | p, z => if |z| < exit_ then .flat else p

/-- The spec-side position sequence: bar `0` seeds and takes no trading
decision (spec §4.4), bars `1..` follow the transition table. -/
def specPosAux (entry exit_ : ℚ) (p : Position) : List ℚ → List Position
  | [] => []
  | z :: zs =>
      let c := specTransition entry exit_ p z
      c :: specPosAux entry exit_ c zs

/-- The spec-side position sequence over a whole z-score stream. -/
def specPosList (entry exit_ : ℚ) : List ℚ → List Position
  | [] => []
  | _ :: zs => Position.flat :: specPosAux entry exit_ Position.flat zs

/-- The three vectorized assignments of `backtest_pair`
(`pairs_nasdaq100.py`): `pos[z > enter] = -1.0`, `pos[z < -enter] = +1.0`,
`pos[z.abs() < exit] = 0.0`, applied in that order to a series initialised
to `0`, so a later assignment overwrites an earlier one. -/
def vecPosRaw (enter exit_ : ℚ) (z : List ℚ) : List ℚ :=
  z.map (fun zi =>
    if |zi| < exit_ then 0
    else if zi < -enter then 1
    else if zi > enter then -1
    else 0)

/-- The helper of `pos.replace(to_replace=0.0, method="ffill")`: each `0`
is replaced by the most recent non-zero value before it. -/
def ffillAux (last : ℚ) : List ℚ → List ℚ
  | [] => []
  | a :: rest =>
      let b := if a = 0 then last else a
      b :: ffillAux b rest

/-- `pos.replace(to_replace=0.0, method="ffill").fillna(0.0)`: forward-fill
of zeros; leading zeros (the `NaN`s of the `replace`) become `0` again via
`fillna(0.0)`. -/
def ffillZeros (l : List ℚ) : List ℚ := ffillAux 0 l

/-- The position pipeline of `backtest_pair` (`pairs_nasdaq100.py`,
position block): vectorized signal assignments, forward-fill of zeros,
re-assertion of exits (`pos[(z.abs() < exit)] = 0.0`), and a second
forward-fill — applied to the z-score series the function computed. -/
def backtestPairPos (enter exit_ : ℚ) (z : List ℚ) : List ℚ :=
  let p1 := vecPosRaw enter exit_ z
  let p2 := ffillZeros p1
  let p3 := List.zipWith (fun zi p => if |zi| < exit_ then 0 else p) z p2
  ffillZeros p3

/-- The position series of `backtest_pair` including its data guard
`if len(z) < 100: return np.nan, {}` (no positions are produced on short
input). -/
def backtestPairPositions (enter exit_ : ℚ) (z : List ℚ) : List ℚ :=
  if z.length < 100 then [] else backtestPairPos enter exit_ z

/-- Running state of the PnL loop of `run_backtest`: current equity, the
equity list built so far (`equity_series`, most recent first), the daily
returns built so far (most recent first), and the `trades` and
`roundtrip_wins` counters. -/
structure LoopState where
  equity : ℚ
  eqRev : List ℚ
  retsRev : List ℚ
  trades : ℕ
  wins : ℕ

/-- One iteration of the PnL loop of `run_backtest` at bar `t ≥ 1`:
commission `(1 - bps) ** 2` on any position change, the crude win check
(`equity_series[-1] > equity_series[-2]` on a close, before the current
bar's equity is appended), per-leg notional `equity * sizing` after the
commission, log returns `rlog(px / prev_x)` and `rlog(py / prev_y)`, the
spread PnL by position sign, borrow cost on the short leg, and the
equity/returns bookkeeping. -/
def simStep (cfg : Config) (rlog : ℚ → ℚ) (prevX prevY : ℚ) (pPrev : Int)
    (st : LoopState) (b : Bar) (p : Int) : LoopState :=
  let bps := cfg.costsBps / 10000
  let borrowDaily := cfg.borrowAnnual / 252
  let changed := p ≠ pPrev
  let trades1 := if changed then st.trades + 1 else st.trades
  let equity1 := if changed then st.equity * (1 - bps) ^ 2 else st.equity
  let isClose := changed ∧ pPrev ≠ 0 ∧ p = 0
  let winTick := 2 ≤ st.eqRev.length ∧ st.eqRev.headD 0 > (st.eqRev.tail).headD 0
  let wins1 := if isClose ∧ winTick then st.wins + 1 else st.wins
  let leg := equity1 * cfg.sizing
  let retX := rlog (b.px / prevX)
  let retY := rlog (b.py / prevY)
  let pnl : ℚ :=
    if p = 1 then leg * retX - leg * b.beta * retY
    else if p = -1 then -(leg * retX) + leg * b.beta * retY
    else 0
  let borrow : ℚ :=
    if p = 1 then leg * |b.beta| * borrowDaily
    else if p = -1 then leg * borrowDaily
    else 0
  let equity2 := equity1 - borrow + pnl
  let prevEq := st.eqRev.headD 0
  { equity := equity2
    eqRev := equity2 :: st.eqRev
    retsRev := (equity2 / prevEq - 1) :: st.retsRev
    trades := trades1
    wins := wins1 }

/-- The PnL loop of `run_backtest` over bars `1..`, threading the previous
bar's prices and position. -/
def simGo (cfg : Config) (rlog : ℚ → ℚ) (prevX prevY : ℚ) (pPrev : Int)
    (st : LoopState) : List (Bar × Int) → LoopState
  | [] => st
  | (b, p) :: rest => simGo cfg rlog b.px b.py p (simStep cfg rlog prevX prevY pPrev st b p) rest

/-- Result of `run_backtest`, restricted to the scalar metrics and the
equity curve (the plotting series `Spread`, `Z`, `Hedge` and the trade
markers are omitted from the model). -/
structure SimResult where
  finalEquity : ℚ
  totalReturnPct : ℚ
  sharpeDaily : ℚ
  maxDrawdownPct : ℚ
  trades : ℕ
  winRatePct : ℚ
  equityCurve : List ℚ

/-- The inert result `run_backtest` builds when fewer than 200 aligned
bars are available: `final_equity` 1.0, zero return, zero trades, zero win
rate.  The source fills the plotting series with an all-NaN placeholder
over the short index; here the curve is simply empty. -/
def emptyResult : SimResult :=
  { finalEquity := 1
    totalReturnPct := 0
    sharpeDaily := 0
    maxDrawdownPct := 0
    trades := 0
    winRatePct := 0
    equityCurve := [] }

/-- Drawdown series `equity_series / equity_series.cummax() - 1.0`,
threading the running peak. -/
def drawdownsAux (peak : ℚ) : List ℚ → List ℚ
  | [] => []
  | e :: es =>
      let m := max peak e
      (e / m - 1) :: drawdownsAux m es

/-- Drawdowns of an equity curve; the first element is its own peak. -/
def drawdowns : List ℚ → List ℚ
  | [] => []
  | e :: es => drawdownsAux e (e :: es)

/-- Minimum of a list, `0` on the empty list (`.min()` of an empty frame
never arises in the source because the curve always holds at least the
seed equity). -/
def listMin : List ℚ → ℚ
  | [] => 0
  | a :: l => l.foldl min a

/-- The metrics block and PnL loop of `run_backtest`, given the kept bars
and the position series: seeds `equity_series = [1.0]` with `prev_x`,
`prev_y` from bar 0, runs the loop over bars `1..`, then computes
`final_equity`, `total_return`, the daily Sharpe ratio (sample standard
deviation, `ddof=1`, guarded by `rets.std() > 0`), the maximum drawdown,
and `win_rate = roundtrip_wins / trades * 100` when `trades > 0`.
On an empty frame the source would fault on `iloc[0]`; the model returns
the inert result there. -/
def simulatePnl (cfg : Config) (rlog rsqrt : ℚ → ℚ) (bars : List Bar) (pos : List Int) :
    SimResult :=
  match bars, pos with
  | b0 :: restB, p0 :: restP =>
      let fin := simGo cfg rlog b0.px b0.py p0 ⟨1, [1], [], 0, 0⟩ (restB.zip restP)
      let eqSeries := fin.eqRev.reverse
      let rets := fin.retsRev.reverse
      let finalEquity := fin.eqRev.headD 1
      let n : ℚ := rets.length
      let mean := rets.sum / n
      let varr := (rets.map (fun a => (a - mean) ^ 2)).sum / (n - 1)
      let std := rsqrt varr
      let sharpe := if std > 0 then mean / (std + 1 / 1000000000000) * rsqrt 252 else 0
      let dd := listMin (drawdowns eqSeries)
      { finalEquity := finalEquity
        totalReturnPct := (finalEquity - 1) * 100
        sharpeDaily := sharpe
        maxDrawdownPct := dd * 100
        trades := fin.trades
        winRatePct := if fin.trades > 0 then (fin.wins : ℚ) / (fin.trades : ℚ) * 100 else 0
        equityCurve := eqSeries }
  | _, _ => emptyResult

/-- The position series `run_backtest` computes internally (its lines
`pos = pd.Series(0, ...)` through the sequential loop), including the
insufficient-data guard `if len(df) < 200` under which no positions are
produced. -/
def backtestPositions (rsqrt : ℚ → ℚ) (cfg : Config) (d : List (ℚ × ℚ)) : List Int :=
  if d.length < 200 then []
  else posList cfg.entryZ cfg.exitZ ((kept rsqrt cfg d).map Prod.snd)

/-- The function `run_backtest` on an aligned frame `d` of `(x, y)` bars:
the insufficient-data guard, the spec-modelled `run_kalman` pipeline, the
NaN mask, the sequential position loop, and the PnL/metrics loop.  The
source performs no validation of the configuration anywhere. -/
def runBacktest (rsqrt rlog : ℚ → ℚ) (cfg : Config) (d : List (ℚ × ℚ)) : SimResult :=
  if d.length < 200 then emptyResult
  else
    simulatePnl cfg rlog rsqrt ((kept rsqrt cfg d).map Prod.fst)
      (posList cfg.entryZ cfg.exitZ ((kept rsqrt cfg d).map Prod.snd))

/-- Default configuration of `run_backtest`: `q = r = 1e-3`,
`z_entry = 2.0`, `z_exit = 0.5`, `sizing = 0.40`, `costs_bps = 12.5`,
`borrow_annual = 0.0025`; prior and window of the spec-modelled
`run_kalman` set to slope 1, variance 1, `W = 60`. -/
def cfgDefault : Config :=
  ⟨1/1000, 1/1000, 2, 1/2, 2/5, 25/2, 1/400, 1, 1, 60⟩

/-- A configuration violating the constraints of spec §6: the exit
threshold exceeds the entry threshold, the process noise is negative and
the sizing fraction is zero. -/
def cfgInvalid : Config :=
  ⟨-1, 0, 2, 3, 0, 0, 0, 1, 1, 60⟩

/-- `update` never touches the measurement-noise field. -/
lemma kalmanUpdate_R (s : KFState) (py px : ℚ) : ((kalmanUpdate s py px).1).R = s.R := rfl

/-- `update` never touches the process-noise field. -/
lemma kalmanUpdate_Q (s : KFState) (py px : ℚ) : ((kalmanUpdate s py px).1).Q = s.Q := rfl

/-- The innovation covariance of one `update` call, in the claim's form. -/
lemma kalmanUpdate_S (s : KFState) (py px : ℚ) :
    (kalmanUpdate s py px).2.2.2 = px ^ 2 * s.P + s.R := by
  simp only [kalmanUpdate]
  ring

/-- Posterior variance of one `update` call in closed form, provided the
innovation covariance is non-degenerate. -/
lemma kalmanUpdate_P (s : KFState) (py px : ℚ) (hS : px ^ 2 * s.P + s.R ≠ 0) :
    ((kalmanUpdate s py px).1).P = s.P * s.R / (px ^ 2 * s.P + s.R) := by
  have h : px * s.P * px + s.R = px ^ 2 * s.P + s.R := by ring
  simp only [kalmanUpdate, h]
  field_simp
  ring

/-- The posterior variance never exceeds the prior and stays nonnegative,
for a nonnegative prior and positive measurement noise. -/
lemma kalmanUpdate_P_le (s : KFState) (py px : ℚ) (hP : 0 ≤ s.P) (hR : 0 < s.R) :
    ((kalmanUpdate s py px).1).P ≤ s.P ∧ 0 ≤ ((kalmanUpdate s py px).1).P := by
  have hPx : 0 ≤ px ^ 2 * s.P := mul_nonneg (sq_nonneg px) hP
  have hSpos : 0 < px ^ 2 * s.P + s.R := by linarith
  rw [kalmanUpdate_P s py px (ne_of_gt hSpos)]
  constructor
  · rw [div_le_iff₀ hSpos]
    have h1 : s.P * s.R ≤ s.P * (px ^ 2 * s.P + s.R) :=
      mul_le_mul_of_nonneg_left (by linarith) hP
    linarith
  · exact div_nonneg (mul_nonneg hP (le_of_lt hR)) (le_of_lt hSpos)

/-- Repeated updates leave the measurement noise untouched. -/
lemma kalmanIter_R (py px : ℚ) (s : KFState) (n : ℕ) :
    (kalmanIter py px s n).R = s.R := by
  induction n with
  | zero => rfl
  | succ n ih => rw [kalmanIter, kalmanUpdate_R, ih]

/-- Repeated updates keep the variance nonnegative. -/
lemma kalmanIter_P_nonneg (py px : ℚ) (s : KFState) (hP : 0 ≤ s.P) (hR : 0 < s.R)
    (n : ℕ) : 0 ≤ (kalmanIter py px s n).P := by
  induction n with
  | zero => exact hP
  | succ n ih =>
      have hR2 : 0 < (kalmanIter py px s n).R := by rw [kalmanIter_R]; exact hR
      exact (kalmanUpdate_P_le (kalmanIter py px s n) py px ih hR2).2

/-- C4: Kalman filter step — `predict()` leaves the state estimate
unchanged and adds the process noise to the covariance (the transition
matrix is the constant identity), and `update(price_y, price_x)` on the
one-dimensional hedge-ratio filter computes
`residual = price_y - price_x * β`, innovation covariance
`S = price_x ^ 2 * P + R`, gain `K = P * price_x / S`, posterior state
`β + K * residual`, posterior covariance `(1 - K * price_x) * P`, and
returns the posterior hedge ratio as the first component of its result
triple. -/
theorem kalman_predict_update_formulas (s : KFState) (py px : ℚ) :
    (kalmanPredict s).x = s.x ∧
    (kalmanPredict s).P = s.P + s.Q ∧
    (kalmanUpdate s py px).2.2.2 = px ^ 2 * s.P + s.R ∧
    ((kalmanUpdate s py px).1).x
      = s.x + s.P * px / (px ^ 2 * s.P + s.R) * (py - px * s.x) ∧
    ((kalmanUpdate s py px).1).P
      = (1 - s.P * px / (px ^ 2 * s.P + s.R) * px) * s.P ∧
    (kalmanUpdate s py px).2.1 = ((kalmanUpdate s py px).1).x := by
  refine ⟨?_, ?_, kalmanUpdate_S s py px, ?_, ?_, rfl⟩
  · simp [kalmanPredict, kalmanF]
  · simp [kalmanPredict, kalmanF]
  · simp only [kalmanUpdate]
    ring
  · simp only [kalmanUpdate]
    ring

/-- C8 counterexample: with degenerate parameters (measurement noise `0`,
as nothing in the source validates it) and observation `price_x = 0`, the
innovation covariance `S` evaluates to exactly `0`, and `update` returns
normally — no `NumericalInstability` condition exists anywhere in the
source, the division by `S` is simply performed. -/
theorem kalman_S_zero_no_error :
    (kalmanUpdate (kalmanInit 1 1 1 0) 5 0).2.2.2 = 0 := by
  rw [kalmanUpdate_S]
  norm_num [kalmanInit]

/-- C8 as amended: whenever the covariance is nonnegative and the
measurement noise is strictly positive (the configured regime of spec §6),
the innovation covariance `S = price_x ^ 2 * P + R` is strictly positive —
no input data can make it zero; the source, however, contains no
`NumericalInstability` check of any kind, and for degenerate parameters
(`R = 0`, `price_x = 0`) it evaluates `S = 0` and divides by it without
surfacing any error. -/
theorem kalman_S_pos (s : KFState) (py px : ℚ) (hP : 0 ≤ s.P) (hR : 0 < s.R) :
    0 < (kalmanUpdate s py px).2.2.2 := by
  rw [kalmanUpdate_S]
  have hPx : 0 ≤ px ^ 2 * s.P := mul_nonneg (sq_nonneg px) hP
  linarith

/-- Witness for `kalman_S_pos` at `β = P = Q = R = 1`, observation
`(price_y, price_x) = (3, 2)`: the hypotheses hold and `S = 5 > 0`. -/
theorem kalman_S_pos_witness :
    0 < (kalmanUpdate (kalmanInit 1 1 1 1) 3 2).2.2.2 :=
  kalman_S_pos (kalmanInit 1 1 1 1) 3 2 zero_le_one zero_lt_one

/-- C9: covariance-trace monotonicity under repeated identical
observations — starting from any filter state with nonnegative covariance
and strictly positive process and measurement noise, repeatedly feeding
the same observation pair through `update` gives a covariance (the trace
of the 1×1 covariance matrix is its single entry) that never increases
between consecutive updates. -/
theorem kalman_cov_trace_monotone (s : KFState) (py px : ℚ)
    (hP : 0 ≤ s.P) (hR : 0 < s.R) (hQ : 0 < s.Q) (n : ℕ) :
    (kalmanIter py px s (n + 1)).P ≤ (kalmanIter py px s n).P := by
  have hR2 : 0 < (kalmanIter py px s n).R := by rw [kalmanIter_R]; exact hR
  exact (kalmanUpdate_P_le (kalmanIter py px s n) py px
    (kalmanIter_P_nonneg py px s hP hR n) hR2).1

/-- Witness for `kalman_cov_trace_monotone` at `β = P = Q = R = 1`,
observation `(3, 2)`, first step: the variance shrinks from `1` to `1/5`. -/
theorem kalman_cov_trace_monotone_witness :
    (kalmanIter 3 2 (kalmanInit 1 1 1 1) 1).P ≤ (kalmanIter 3 2 (kalmanInit 1 1 1 1) 0).P :=
  kalman_cov_trace_monotone (kalmanInit 1 1 1 1) 3 2 zero_le_one zero_lt_one zero_lt_one 0

/-- C10: totality and positivity of the filter update — for every
observation pair (including `price_x = 0`) and every state with `P ≥ 0`,
`R > 0`, after a `predict` with `Q > 0` the `update` call computes
`S = price_x ^ 2 * (P + Q) + R ≥ R > 0` (so the gain division is always
well-defined; the embedding is a total function, mirroring that the source
raises nothing), and the posterior covariance equals `(P + Q) * R / S` and
is strictly positive. -/
theorem kalman_update_total_posdef (s : KFState) (py px : ℚ)
    (hP : 0 ≤ s.P) (hR : 0 < s.R) (hQ : 0 < s.Q) :
    (kalmanUpdate (kalmanPredict s) py px).2.2.2 = px ^ 2 * (s.P + s.Q) + s.R ∧
    s.R ≤ (kalmanUpdate (kalmanPredict s) py px).2.2.2 ∧
    0 < (kalmanUpdate (kalmanPredict s) py px).2.2.2 ∧
    ((kalmanUpdate (kalmanPredict s) py px).1).P
      = (s.P + s.Q) * s.R / (px ^ 2 * (s.P + s.Q) + s.R) ∧
    0 < ((kalmanUpdate (kalmanPredict s) py px).1).P := by
  have hP1 : (kalmanPredict s).P = s.P + s.Q := by simp [kalmanPredict, kalmanF]
  have hR1 : (kalmanPredict s).R = s.R := rfl
  have hPQ : 0 < s.P + s.Q := by linarith
  have hPx : 0 ≤ px ^ 2 * (s.P + s.Q) := mul_nonneg (sq_nonneg px) (le_of_lt hPQ)
  have hSpos : 0 < px ^ 2 * (s.P + s.Q) + s.R := by linarith
  have hS : (kalmanUpdate (kalmanPredict s) py px).2.2.2 = px ^ 2 * (s.P + s.Q) + s.R := by
    rw [kalmanUpdate_S, hP1, hR1]
  have hPP : ((kalmanUpdate (kalmanPredict s) py px).1).P
      = (s.P + s.Q) * s.R / (px ^ 2 * (s.P + s.Q) + s.R) := by
    rw [kalmanUpdate_P _ py px (by rw [hP1, hR1]; exact ne_of_gt hSpos), hP1, hR1]
  refine ⟨hS, ?_, ?_, hPP, ?_⟩
  · rw [hS]; linarith
  · rw [hS]; exact hSpos
  · rw [hPP]; exact div_pos (mul_pos hPQ hR) hSpos

/-- Witness for `kalman_update_total_posdef` at `β = P = Q = R = 1`,
observation `(3, 2)`: `S = 9`, posterior covariance `2/9 > 0`. -/
theorem kalman_update_total_posdef_witness :
    (kalmanUpdate (kalmanPredict (kalmanInit 1 1 1 1)) 3 2).2.2.2
        = 2 ^ 2 * ((kalmanInit 1 1 1 1).P + (kalmanInit 1 1 1 1).Q) + (kalmanInit 1 1 1 1).R ∧
    (kalmanInit 1 1 1 1).R ≤ (kalmanUpdate (kalmanPredict (kalmanInit 1 1 1 1)) 3 2).2.2.2 ∧
    0 < (kalmanUpdate (kalmanPredict (kalmanInit 1 1 1 1)) 3 2).2.2.2 ∧
    ((kalmanUpdate (kalmanPredict (kalmanInit 1 1 1 1)) 3 2).1).P
      = ((kalmanInit 1 1 1 1).P + (kalmanInit 1 1 1 1).Q) * (kalmanInit 1 1 1 1).R
          / (2 ^ 2 * ((kalmanInit 1 1 1 1).P + (kalmanInit 1 1 1 1).Q) + (kalmanInit 1 1 1 1).R) ∧
    0 < ((kalmanUpdate (kalmanPredict (kalmanInit 1 1 1 1)) 3 2).1).P :=
  kalman_update_total_posdef (kalmanInit 1 1 1 1) 3 2 zero_le_one zero_lt_one zero_lt_one

/-- One step of the source loop agrees with one row of the spec's
transition table, through the integer encoding. -/
lemma posStep_eq_specTransition (e x : ℚ) (p : Position) (z : ℚ) :
    posStep e x (encodePos p) z = encodePos (specTransition e x p z) := by
  cases p with
  | flat =>
      show (if (0:Int) = 0 then if z > e then (-1:Int) else if z < -e then 1 else 0
            else if |z| < x then 0 else 0)
          = encodePos (if z > e then .shortSpread else if z < -e then .longSpread else .flat)
      rw [if_pos rfl]
      split_ifs <;> rfl
  | longSpread =>
      show (if (1:Int) = 0 then if z > e then (-1:Int) else if z < -e then 1 else 0
            else if |z| < x then 0 else 1)
          = encodePos (if |z| < x then .flat else .longSpread)
      rw [if_neg (by decide : ¬(1:Int) = 0)]
      split_ifs <;> rfl
  | shortSpread =>
      show (if (-1:Int) = 0 then if z > e then (-1:Int) else if z < -e then 1 else 0
            else if |z| < x then 0 else -1)
          = encodePos (if |z| < x then .flat else .shortSpread)
      rw [if_neg (by decide : ¬(-1:Int) = 0)]
      split_ifs <;> rfl

/-- The loop tail agrees with the spec-side sequence from any matching
state. -/
lemma posAux_eq_specPosAux (e x : ℚ) (zs : List ℚ) : ∀ (p : Position),
    posAux e x (encodePos p) zs = (specPosAux e x p zs).map encodePos := by
  induction zs with
  | nil => intro p; rfl
  | cons z zs ih =>
      intro p
      simp only [posAux, specPosAux, List.map_cons, posStep_eq_specTransition]
      exact congrArg _ (ih (specTransition e x p z))

/-- C3: the position transition of `run_backtest` is exactly the spec's
table (spec §4.3) — at every bar the next position depends only on the
previous bar's position and the current z-score; from `Flat` the next
state is `ShortSpread` iff `zscore > +entryThreshold`, `LongSpread` iff
`zscore < -entryThreshold`, otherwise `Flat`; from an open position the
next state is `Flat` iff `|zscore| < exitThreshold`, otherwise unchanged;
every comparison is strict, so a z-score exactly equal to a threshold
takes the "no transition" branch (visible in `specTransition`, whose rows
use `<` and `>` only).  Stated as: the source's integer position sequence
is the spec-side sequence under the encoding `Flat ↦ 0`,
`LongSpread ↦ +1`, `ShortSpread ↦ -1`. -/
theorem position_machine_refines_spec (e x : ℚ) (zs : List ℚ) :
    posList e x zs = (specPosList e x zs).map encodePos := by
  cases zs with
  | nil => rfl
  | cons z zs =>
      simp only [posList, specPosList, List.map_cons]
      exact congrArg _ (posAux_eq_specPosAux e x zs Position.flat)

/-- A position and its successor never multiply to `-1`: one step of the
loop either keeps the sign, closes to `0`, or opens from `0`. -/
lemma posStep_no_flip (e x : ℚ) (p : Int) (z : ℚ) :
    p * posStep e x p z ≠ -1 := by
  by_cases hp : p = 0
  · subst hp
    simp
  · have h0 : posStep e x p z = 0 ∨ posStep e x p z = p := by
      unfold posStep
      rw [if_neg hp]
      split_ifs <;> simp
    rcases h0 with h | h
    · rw [h, mul_zero]
      decide
    · rw [h]
      have := mul_self_nonneg p
      intro hc
      rw [hc] at this
      exact absurd this (by decide)

/-- Along the whole loop, no two consecutive positions multiply to `-1`. -/
lemma posAux_no_flip (e x : ℚ) : ∀ (zs : List ℚ) (p : Int) (i : ℕ),
    (p :: posAux e x p zs).getD i 0 * (p :: posAux e x p zs).getD (i + 1) 0 ≠ -1 := by
  intro zs
  induction zs with
  | nil =>
      intro p i
      cases i with
      | zero => simp [posAux]
      | succ j => simp [posAux, List.getD]
  | cons z zs ih =>
      intro p i
      cases i with
      | zero =>
          simp only [posAux, List.getD_cons_zero, List.getD_cons_succ]
          exact posStep_no_flip e x p z
      | succ j =>
          simp only [posAux, List.getD_cons_succ]
          exact ih (posStep e x p z) j

/-- C2 as amended: the sequential position loop of `run_backtest` never
moves directly from long spread (`+1`) to short spread (`-1`) or back
between two consecutive bars — the product of two consecutive positions is
never `-1`, so every reversal passes through flat (`0`).  (The vectorized
`backtest_pair` of `pairs_nasdaq100.py` does not have this property; see
the counterexample `backtest_pair_direct_flip`.) -/
theorem run_backtest_no_flip (e x : ℚ) (zs : List ℚ) (i : ℕ) :
    (posList e x zs).getD i 0 * (posList e x zs).getD (i + 1) 0 ≠ -1 := by
  cases zs with
  | nil => simp [posList]
  | cons z zs => exact posAux_no_flip e x zs 0 i

/-- Witness for `run_backtest_no_flip` on a concrete z-score series with
an entry and an exit. -/
theorem run_backtest_no_flip_witness :
    (posList 2 (1/2) [0, 3, 0]).getD 0 0 * (posList 2 (1/2) [0, 3, 0]).getD 1 0 ≠ -1 :=
  run_backtest_no_flip 2 (1/2) [0, 3, 0] 0

/-- C2 counterexample: the vectorized position logic of `backtest_pair`
(`pairs_nasdaq100.py`), on a z-score series of 100 bars (enough to pass
its data guard) whose first two values jump from `+3` to `-3` with the
default thresholds `enter = 2.0`, `exit = 0.5`, produces position `-1`
(short spread) at bar 0 immediately followed by `+1` (long spread) at
bar 1 — a direct reversal with no intervening flat bar. -/
theorem backtest_pair_direct_flip :
    (backtestPairPositions 2 (1/2) (3 :: -3 :: List.replicate 98 3)).getD 0 0 = -1 ∧
    (backtestPairPositions 2 (1/2) (3 :: -3 :: List.replicate 98 3)).getD 1 0 = 1 := by
  have hlen : ¬((3 :: -3 :: List.replicate 98 (3:ℚ)).length < 100) := by
    simp [List.length_replicate]
  have h3 : ¬(|(3:ℚ)| < 1/2) := by rw [abs_of_pos] <;> norm_num
  have hm3 : ¬(|(-3:ℚ)| < 1/2) := by rw [abs_of_neg] <;> norm_num
  have h3e : ¬((3:ℚ) < -2) := by norm_num
  have h3g : (3:ℚ) > 2 := by norm_num
  have hm3e : (-3:ℚ) < -2 := by norm_num
  simp only [backtestPairPositions, if_neg hlen, backtestPairPos, vecPosRaw,
    List.map_cons, List.map_replicate, if_neg h3, if_neg hm3, if_neg h3e, if_pos h3g,
    if_pos hm3e, ffillZeros, ffillAux, List.zipWith_cons_cons]
  norm_num

/-- The Kalman scan is causal: its output on a truncated series is the
truncation of its output. -/
lemma betas_take (d : List (ℚ × ℚ)) : ∀ (s : KFState) (n : ℕ),
    betas s (d.take n) = (betas s d).take n := by
  induction d with
  | nil => intro s n; simp [betas]
  | cons b d ih =>
      intro s n
      cases n with
      | zero => simp [betas]
      | succ n => simp only [List.take_succ_cons, betas, ih]

/-- The spread stream is causal. -/
lemma spreads_take (cfg : Config) (d : List (ℚ × ℚ)) (n : ℕ) :
    spreads cfg (d.take n) = (spreads cfg d).take n := by
  unfold spreads
  rw [betas_take, ← List.take_zipWith]

/-- `getD` looks through a `take` that is long enough. -/
lemma getD_take_eq (s : List ℚ) (k t : ℕ) (h : t < k) :
    (s.take k).getD t 0 = s.getD t 0 := by
  rw [List.getD_eq_getElem?_getD, List.getD_eq_getElem?_getD, List.getElem?_take, if_pos h]

/-- The z-score of bar `t` only reads bars `0..t`: truncating the spread
stream after `t` does not change it. -/
lemma zAt_take (rsqrt : ℚ → ℚ) (W : ℕ) (s : List ℚ) (k t : ℕ) (h : t < k) :
    zAt rsqrt W (s.take k) t = zAt rsqrt W s t := by
  unfold zAt
  rw [List.take_take, min_eq_left (by omega : t + 1 ≤ k), getD_take_eq s k t h]

/-- The z-score stream is causal. -/
lemma zscoreList_take (rsqrt : ℚ → ℚ) (W : ℕ) (s : List ℚ) (k : ℕ) :
    zscoreList rsqrt W (s.take k) = (zscoreList rsqrt W s).take k := by
  unfold zscoreList
  rw [← List.map_take, List.take_range, List.length_take]
  refine List.map_congr_left ?_
  intro t ht
  rw [List.mem_range] at ht
  exact zAt_take rsqrt W s k t (lt_of_lt_of_le ht (min_le_left _ _))

/-- `filterMap` of a `take` is a prefix of the `filterMap` of the whole
list. -/
lemma filterMap_take_pref {α β : Type} (f : α → Option β) (l : List α) (n : ℕ) :
    (l.take n).filterMap f <+: l.filterMap f := by
  conv_rhs => rw [← List.take_append_drop n l]
  rw [List.filterMap_append]
  exact List.prefix_append _ _

/-- The kept (tradeable) bars of a truncated frame form a prefix of the
kept bars of the full frame: the NaN mask at each bar is decided by that
bar's own (causally computed) z-score. -/
lemma kept_take_pref (rsqrt : ℚ → ℚ) (cfg : Config) (d : List (ℚ × ℚ)) (n : ℕ) :
    kept rsqrt cfg (d.take n) <+: kept rsqrt cfg d := by
  unfold kept
  rw [betas_take, spreads_take, zscoreList_take, List.zip_eq_zipWith, List.zip_eq_zipWith,
    ← List.take_zipWith, ← List.take_zipWith]
  exact filterMap_take_pref _ _ n

/-- Splitting the position loop over an append: the second half starts
from the state the first half ends in. -/
lemma posAux_append (e x : ℚ) (l1 l2 : List ℚ) : ∀ p,
    posAux e x p (l1 ++ l2) = posAux e x p l1 ++ posAux e x (posFinal e x p l1) l2 := by
  induction l1 with
  | nil => intro p; rfl
  | cons z zs ih => intro p; simp only [List.cons_append, posAux, posFinal, List.append_eq, ih]

/-- The position series of a prefix of the z-scores is a prefix of the
position series. -/
lemma posList_append_pref (e x : ℚ) (l1 l2 : List ℚ) :
    posList e x l1 <+: posList e x (l1 ++ l2) := by
  cases l1 with
  | nil => exact List.nil_prefix
  | cons z zs =>
      refine ⟨posAux e x (posFinal e x 0 zs) l2, ?_⟩
      simp [posList, posAux_append, List.cons_append]

/-- C1: causality of the trading decisions — running the backtest on the
series truncated just after bar `t` produces exactly the positions the
full run assigns to the bars up to `t` (the truncated run's position
series is a prefix of the full run's).  Equivalently, `position[t]` is
invariant under any mutation of the bars strictly after `t`, since either
mutated tail yields the same prefix.  The statement covers the
insufficient-data guard: a truncation that falls below 200 bars produces
no positions at all, which is still a prefix.  The z-score pipeline here
stands in for the absent `run_kalman`, modelled from the spec. -/
theorem backtest_positions_causal (rsqrt : ℚ → ℚ) (cfg : Config) (d : List (ℚ × ℚ)) (t : ℕ) :
    backtestPositions rsqrt cfg (d.take t) <+: backtestPositions rsqrt cfg d := by
  unfold backtestPositions
  by_cases h1 : (d.take t).length < 200
  · rw [if_pos h1]
    exact List.nil_prefix
  · rw [if_neg h1]
    have h2 : ¬ d.length < 200 := by
      rw [List.length_take] at h1
      omega
    rw [if_neg h2]
    obtain ⟨r, hr⟩ := kept_take_pref rsqrt cfg d t
    rw [← hr, List.map_append]
    exact posList_append_pref _ _ _ _

/-- Each loop iteration appends exactly one equity value. -/
lemma simStep_eqRev_length (cfg : Config) (rlog : ℚ → ℚ) (pX pY : ℚ) (pP : Int)
    (st : LoopState) (b : Bar) (p : Int) :
    (simStep cfg rlog pX pY pP st b p).eqRev.length = st.eqRev.length + 1 := rfl

/-- The PnL loop appends one equity value per bar it consumes. -/
lemma simGo_eqRev_length (cfg : Config) (rlog : ℚ → ℚ) :
    ∀ (l : List (Bar × Int)) (pX pY : ℚ) (pP : Int) (st : LoopState),
    (simGo cfg rlog pX pY pP st l).eqRev.length = st.eqRev.length + l.length := by
  intro l
  induction l with
  | nil => intro pX pY pP st; rfl
  | cons bp rest ih =>
      intro pX pY pP st
      obtain ⟨b, p⟩ := bp
      rw [simGo, ih, simStep_eqRev_length, List.length_cons]
      omega

/-- The equity curve covers every kept bar: one value per bar, the seed
included. -/
lemma simulatePnl_curve_length (cfg : Config) (rlog rsqrt : ℚ → ℚ)
    (bars : List Bar) (pos : List Int) (h : bars.length = pos.length) :
    (simulatePnl cfg rlog rsqrt bars pos).equityCurve.length = bars.length := by
  cases bars with
  | nil =>
      cases pos with
      | nil => rfl
      | cons p ps => simp at h
  | cons b0 restB =>
      cases pos with
      | nil => simp at h
      | cons p0 restP =>
          simp only [simulatePnl, List.length_cons]
          rw [List.length_reverse, simGo_eqRev_length, List.length_zip]
          simp only [List.length_cons] at h
          simp
          omega

/-- The loop tail has one position per z-score. -/
lemma posAux_length (e x : ℚ) : ∀ (zs : List ℚ) (p : Int),
    (posAux e x p zs).length = zs.length := by
  intro zs
  induction zs with
  | nil => intro p; rfl
  | cons z t ih => intro p; simp only [posAux, List.length_cons, ih]

/-- The position series has one position per z-score. -/
lemma posList_length (e x : ℚ) (zs : List ℚ) : (posList e x zs).length = zs.length := by
  cases zs with
  | nil => rfl
  | cons z t => simp only [posList, List.length_cons, posAux_length]

/-- C6: the insufficient-data guard — whenever the aligned input frame has
fewer than 200 bars (`if len(df) < 200`, the code's required minimum), the
simulator returns the well-formed zero-activity result — final equity
`1.0`, total return `0`, zero trades, zero win rate, no equity values —
without raising, for every configuration (the embedding is a total
function and the guard precedes every computation). -/
theorem insufficient_data_inert (rsqrt rlog : ℚ → ℚ) (cfg : Config)
    (d : List (ℚ × ℚ)) (h : d.length < 200) :
    runBacktest rsqrt rlog cfg d = emptyResult := by
  unfold runBacktest
  rw [if_pos h]

/-- Witness for `insufficient_data_inert`: the empty frame with the
source's default configuration. -/
theorem insufficient_data_inert_witness :
    ([] : List (ℚ × ℚ)).length < 200 ∧
      runBacktest id id cfgDefault [] = emptyResult :=
  ⟨by decide, insufficient_data_inert id id cfgDefault [] (by decide)⟩

/-- C7 counterexample: on a configuration violating the spec's constraints
three ways at once (`exitThreshold > entryThreshold`, non-positive process
noise, non-positive sizing), `run_backtest` does not fail with any
`InvalidConfiguration` error — no validation exists anywhere in its body —
it simply proceeds and returns an ordinary result (here, the inert
insufficient-data result for a short frame). -/
theorem invalid_config_not_rejected :
    cfgInvalid.exitZ > cfgInvalid.entryZ ∧ cfgInvalid.q ≤ 0 ∧ cfgInvalid.sizing ≤ 0 ∧
      runBacktest id id cfgInvalid [] = emptyResult := by
  refine ⟨by norm_num [cfgInvalid], by norm_num [cfgInvalid], by norm_num [cfgInvalid], ?_⟩
  unfold runBacktest
  rw [if_pos (by decide)]

/-- C7 as amended: `run_backtest` performs no configuration validation and
never fails fast — for every configuration, the invalid ones of spec §6
included, a frame of at least 200 bars is processed bar by bar, producing
an equity value for every kept bar (and the positions, trades and metrics
with it) rather than no partial output. -/
theorem backtest_runs_under_any_config (rsqrt rlog : ℚ → ℚ) (cfg : Config)
    (d : List (ℚ × ℚ)) (h : 200 ≤ d.length) :
    (runBacktest rsqrt rlog cfg d).equityCurve.length = (kept rsqrt cfg d).length := by
  unfold runBacktest
  rw [if_neg (by omega)]
  rw [simulatePnl_curve_length]
  · simp
  · rw [posList_length]
    simp

/-- Witness for `backtest_runs_under_any_config`, at the invalid
configuration `cfgInvalid` and a 200-bar frame. -/
theorem backtest_runs_under_any_config_witness :
    200 ≤ (List.replicate 200 ((1:ℚ), (1:ℚ))).length ∧
      (runBacktest id id cfgInvalid (List.replicate 200 ((1:ℚ), (1:ℚ)))).equityCurve.length
        = (kept id cfgInvalid (List.replicate 200 ((1:ℚ), (1:ℚ)))).length :=
  ⟨by simp only [List.length_replicate]; exact le_refl 200,
    backtest_runs_under_any_config id id cfgInvalid _
      (by simp only [List.length_replicate]; exact le_refl 200)⟩

/-- Configuration for the win-rate example: full sizing, zero transaction
cost and zero borrow, so the equity path is transparent. -/
def cfgC5 : Config := ⟨1, 1, 2, 1/2, 1, 0, 0, 1, 1, 2⟩

/-- C5 (the code at the claim's failing input): one round trip — flat,
long spread, flat — on bars whose `x` leg doubles during the trade
(`rlog` maps `2 ↦ 1` and `1 ↦ 0`, consistent with a log return), hedge
ratio `0`, no costs.  The single closed trade realizes `+1` of PnL
(equity `1` at entry, `2` at exit, visible in the equity curve), so the
claimed metric is `1/1 = 100%`; the code counts `trades = 2` (the opening
transition included) and reports `win_rate = 1/2 = 50%`. -/
theorem win_rate_counts_all_transitions :
    (simulatePnl cfgC5 (fun q => q - 1) id
        [⟨1, 1, 0⟩, ⟨2, 1, 0⟩, ⟨2, 1, 0⟩] [0, 1, 0]).trades = 2 ∧
    (simulatePnl cfgC5 (fun q => q - 1) id
        [⟨1, 1, 0⟩, ⟨2, 1, 0⟩, ⟨2, 1, 0⟩] [0, 1, 0]).equityCurve = [1, 2, 2] ∧
    (simulatePnl cfgC5 (fun q => q - 1) id
        [⟨1, 1, 0⟩, ⟨2, 1, 0⟩, ⟨2, 1, 0⟩] [0, 1, 0]).winRatePct = 50 := by
  norm_num [simulatePnl, simGo, simStep, cfgC5, List.zip]

end PairsBacktest
